import Mathlib

/-!
Verification of the mini-stabble AMM math engine: a shallow embedding of
`src/programs/mini-stabble/src/math/{fixed,weighted,stable}.rs` into Lean,
with machine integers modelled as `Nat` plus explicit width checks
(`u64` at `2^64`, `u128` at `2^128`, the wide `U192` intermediates at `2^192`),
fallible checked arithmetic as `Option`/`Except`.
-/

namespace MiniStabble

/-! ### Constants from fixed.rs and stable.rs -/

def SCALE : Nat := 1000000000

def ZERO : Nat := 0

def ONE : Nat := SCALE

def TWO : Nat := 2 * SCALE

def THREE : Nat := 3 * SCALE

def FOUR : Nat := 4 * SCALE

def BITS_ONE : Nat := 2 ^ 30

def ONE_U64 : Nat := 1000000000

def U64_SIZE : Nat := 2 ^ 64

def U128_SIZE : Nat := 2 ^ 128

def U192_SIZE : Nat := 2 ^ 192

/-! ### Error type from errors.rs -/

inductive MiniStabbleError where
  | MathOverflow
  | DivideByZero
  | InvalidAmount
  | SlippageExceeded
  | NoProfitableArbitrage
  | MintOrderInvalid
  | InvalidWeight
deriving DecidableEq, Repr

/-- Turn an `Option` (Rust's checked arithmetic) into a `Result`, as Rust's
`ok_or` does. -/
def okOr (o : Option Nat) (e : MiniStabbleError) : Except MiniStabbleError Nat :=
  match o with
  | some v => .ok v
  | none => .error e

/-! ### Checked machine arithmetic -/

def checkedMul128 (a b : Nat) : Option Nat :=
  if a * b < U128_SIZE then some (a * b) else none

def checkedAdd128 (a b : Nat) : Option Nat :=
  if a + b < U128_SIZE then some (a + b) else none

/-- Rust `checked_div`: `none` exactly when the divisor is zero. -/
def checkedDiv (a b : Nat) : Option Nat :=
  if b = 0 then none else some (a / b)

/-- Rust `checked_sub` on unsigned integers: `none` on underflow. -/
def checkedSub (a b : Nat) : Option Nat :=
  if b ≤ a then some (a - b) else none

def checkedAdd64 (a b : Nat) : Option Nat :=
  if a + b < U64_SIZE then some (a + b) else none

def checkedMul64 (a b : Nat) : Option Nat :=
  if a * b < U64_SIZE then some (a * b) else none

/-- Rust `u64::try_from` on a `u128` value. -/
def toU64 (v : Nat) : Option Nat :=
  if v < U64_SIZE then some v else none

/-! ### fixed.rs: FixedMul / FixedDiv / FixedComplement for u128 -/

namespace U128

def mul_down (a b : Nat) : Except MiniStabbleError Nat :=
  okOr ((checkedMul128 a b).bind (fun v => checkedDiv v SCALE)) .MathOverflow

def mul_up (a b : Nat) : Except MiniStabbleError Nat := do
  let product ← okOr (checkedMul128 a b) .MathOverflow
  okOr ((checkedAdd128 product (SCALE - 1)).bind (fun v => checkedDiv v SCALE))
    .MathOverflow

def div_down (a b : Nat) : Except MiniStabbleError Nat :=
  if b = 0 then .error .DivideByZero
  else okOr ((checkedMul128 a SCALE).bind (fun v => checkedDiv v b)) .MathOverflow

def div_up (a b : Nat) : Except MiniStabbleError Nat :=
  if b = 0 then .error .DivideByZero
  else do
    let numerator ← okOr (checkedMul128 a SCALE) .MathOverflow
    okOr ((checkedAdd128 numerator (b - 1)).bind (fun v => checkedDiv v b))
      .MathOverflow

/-- `complement(a) = ONE.saturating_sub(a)`; `Nat` subtraction is saturating. -/
def complement (a : Nat) : Nat :=
  ONE - a

end U128

/-! ### fixed.rs: FixedMul / FixedDiv / FixedComplement for u64 -/

namespace U64

def mul_down (a b : Nat) : Except MiniStabbleError Nat :=
  okOr (((checkedMul128 a b).bind (fun v => checkedDiv v ONE_U64)).bind toU64)
    .MathOverflow

def mul_up (a b : Nat) : Except MiniStabbleError Nat := do
  let product ← okOr (checkedMul128 a b) .MathOverflow
  okOr (((checkedAdd128 product (ONE_U64 - 1)).bind
      (fun v => checkedDiv v ONE_U64)).bind toU64)
    .MathOverflow

def div_down (a b : Nat) : Except MiniStabbleError Nat :=
  if b = 0 then .error .DivideByZero
  else okOr (((checkedMul128 a ONE_U64).bind (fun v => checkedDiv v b)).bind toU64)
    .MathOverflow

def div_up (a b : Nat) : Except MiniStabbleError Nat :=
  if b = 0 then .error .DivideByZero
  else do
    let numerator ← okOr (checkedMul128 a ONE_U64) .MathOverflow
    okOr (((checkedAdd128 numerator (b - 1)).bind
        (fun v => checkedDiv v b)).bind toU64)
      .MathOverflow

def complement (a : Nat) : Nat :=
  ONE_U64 - a

end U64

/-! ### fixed.rs: FixedPow for u128

The `0, ONE, TWO, THREE, FOUR` exponents are exact fast paths computed by
repeated fixed-point multiplication, straight from the source.  The general
branch converts to 64-bit `U34F30` bit representations and calls `powf`. -/

def mulBits (a b : Nat) : Option Nat :=
  if a * b / BITS_ONE < U64_SIZE then some (a * b / BITS_ONE) else none

def sqrtBits (a : Nat) : Nat :=
  Nat.sqrt (a * BITS_ONE)

def ipowBits (x : Nat) : Nat → Option Nat
  | 0 => some BITS_ONE
  | q + 1 => (ipowBits x q).bind (fun r => mulBits r x)

def fracPowBits (x f : Nat) : Nat → Nat → Option Nat
  | 0, acc => some acc
  | fuel + 1, acc =>
      let cur := sqrtBits x
      if f.testBit fuel then
        (mulBits acc cur).bind (fun acc2 => fracPowBits cur f fuel acc2)
      else fracPowBits cur f fuel acc

/-- Modelled from the spec: the general (non-fast-path) power branch calls
`U34F30::powf` from the external `fixed_exp` crate, whose source is not part
of this repository; spec §4.1/§9 describe it only as "a fixed-point
exponential/logarithm approximation ... with a defined numeric tolerance"
and leave its exact numerics an open question.  It is modelled here as
binary-fraction exponentiation on the 64-bit `U34F30` bit representation
(30 fractional bits): integer part by repeated multiplication, fractional
part by repeated square roots, failing on 64-bit overflow.  No theorem below
depends on a value produced by this model. -/
def powfBits (x e : Nat) : Option Nat :=
  if x = 0 then (if e = 0 then some BITS_ONE else some 0)
  else
    (ipowBits x (e / BITS_ONE)).bind (fun ip =>
      (fracPowBits x (e % BITS_ONE) 30 BITS_ONE).bind (fun fp =>
        mulBits ip fp))

namespace U128

def pow_down (a rhs : Nat) : Except MiniStabbleError Nat :=
  if rhs = ZERO then .ok ONE
  else if rhs = ONE then .ok a
  else if rhs = TWO then mul_down a a
  else if rhs = THREE then do
    let s ← mul_down a a
    mul_down s a
  else if rhs = FOUR then do
    let s ← mul_down a a
    mul_down s s
  else do
    let baseBits ← U64.mul_down (a % U64_SIZE) BITS_ONE
    let expBits ← U64.mul_down (rhs % U64_SIZE) BITS_ONE
    let r ← okOr (powfBits baseBits expBits) .MathOverflow
    U64.div_down r BITS_ONE

def pow_up (a rhs : Nat) : Except MiniStabbleError Nat :=
  if rhs = ZERO then .ok ONE
  else if rhs = ONE then .ok a
  else if rhs = TWO then mul_up a a
  else if rhs = THREE then do
    let s ← mul_up a a
    mul_up s a
  else if rhs = FOUR then do
    let s ← mul_up a a
    mul_up s s
  else do
    let baseBits ← U64.mul_up (a % U64_SIZE) BITS_ONE
    let expBits ← U64.mul_up (rhs % U64_SIZE) BITS_ONE
    let r ← okOr (powfBits baseBits expBits) .MathOverflow
    U64.div_up r BITS_ONE

end U128

/-! ### weighted.rs -/

namespace Weighted

/-- The indexed product loop of `calc_invariant`, one step per
`(balance, weight)` pair (the source indexes `weights[index]` under a
length-equality guard, so pairing the lists is exact). -/
def invariantProd : List (Nat × Nat) → Nat → Except MiniStabbleError Nat
  | [], invariant => .ok invariant
  | (balance, weight) :: rest, invariant => do
      let result ← U128.pow_down balance weight
      let invariant2 ← U128.mul_down invariant result
      invariantProd rest invariant2

def calc_invariant (balances weights : List Nat) :
    Except MiniStabbleError Nat :=
  if balances.length ≠ weights.length ∨ balances.length = 0 then
    .error .InvalidAmount
  else do
    let invariant ← invariantProd (balances.zip weights) ONE
    if invariant > 0 then .ok invariant else .error .InvalidAmount

def calc_out_given_in (balance_in weight_in balance_out weight_out amount_in : Nat) :
    Except MiniStabbleError Nat := do
  let s ← okOr (checkedAdd128 balance_in amount_in) .MathOverflow
  let base ← U128.div_up balance_in s
  let exponent ← U128.div_down weight_in weight_out
  let power ← U128.pow_up base exponent
  let c := U128.complement power
  U128.mul_down balance_out c

def calc_in_given_out (balance_in weight_in balance_out weight_out amount_out : Nat) :
    Except MiniStabbleError Nat := do
  let s ← okOr (checkedSub balance_out amount_out) .MathOverflow
  let base ← U128.div_up balance_out s
  let exponent ← U128.div_up weight_out weight_in
  let power ← U128.pow_up base exponent
  let c ← okOr (checkedSub power ONE) .MathOverflow
  U128.mul_up balance_in c

end Weighted

/-! ### stable.rs -/

namespace Stable

def AMP_PRECISION : Nat := 1000

def MAX_LOOP_LIMIT : Nat := 256

def DEFAULT_INV_THRESHOLD : Nat := 100

def BALANCE_THRESHOLD : Nat := 1

def chk192 (v : Nat) : Option Nat :=
  if v < U192_SIZE then some v else none

/-- Modelled from the spec: `U192::checked_mul_div_down` from the external
`bn` crate, which is not part of this repository.  Spec §3/§4.3 require every
multiply-then-divide to "multiply first in a wider intermediate width before
dividing" with "intermediate products ... carried in at least a
192-bit-equivalent width": exact product, floor division, failure on a zero
divisor or a quotient not fitting 192 bits.  This model reproduces all six
numeric reference vectors asserted by the repository's own tests
(`stable.rs` test module), bit for bit. -/
def checked_mul_div_down (a b c : Nat) : Option Nat :=
  if c = 0 then none else chk192 (a * b / c)

/-- Modelled from the spec: `U192::checked_mul_div_up` from the external `bn`
crate — as `checked_mul_div_down` but with ceiling division. -/
def checked_mul_div_up (a b c : Nat) : Option Nat :=
  if c = 0 then none else chk192 ((a * b + c - 1) / c)

/-- Modelled from the spec: `U192::checked_div_ceil` from the external `bn`
crate — ceiling division, failing on a zero divisor. -/
def checked_div_ceil (a b : Nat) : Option Nat :=
  if b = 0 then none else chk192 ((a + b - 1) / b)

/-- Modelled from the spec: `U192::checked_mul`, failing when the product
exceeds 192 bits. -/
def checked_mul192 (a b : Nat) : Option Nat :=
  chk192 (a * b)

/-- Modelled from the spec: `U192::checked_add`. -/
def checked_add192 (a b : Nat) : Option Nat :=
  chk192 (a + b)

/-- Modelled from the spec: `U192::checked_div`. -/
def checked_div192 (a b : Nat) : Option Nat :=
  if b = 0 then none else some (a / b)

/-- Modelled from the spec: `Downcast::as_u64`, failing when the value does
not fit in 64 bits. -/
def as_u64 (v : Nat) : Option Nat :=
  if v < U64_SIZE then some v else none

/-- The inner `D_P` fold of `calc_invariant`:
`dp = dp * d / (n * balance)` over all balances. -/
def dpFold (n d : Nat) : List Nat → Nat → Option Nat
  | [], dp => some dp
  | balance :: rest, dp => do
      let nb ← checked_mul192 n balance
      let dp2 ← checked_mul_div_down dp d nb
      dpFold n d rest dp2

/-- One Newton step of the `D` solver:
`d_new = (Ann*S + n*D_P*AMP_PRECISION) * D /
  ((Ann - AMP_PRECISION)*D + (n+1)*D_P*AMP_PRECISION)`. -/
def invStep (ann n s : Nat) (balances : List Nat) (d : Nat) : Option Nat := do
  let dp ← dpFold n d balances d
  let t1 ← checked_mul192 ann s
  let t2 ← checked_mul192 n dp
  let t3 ← checked_mul192 t2 AMP_PRECISION
  let num ← checked_add192 t1 t3
  let a1 ← checkedSub ann AMP_PRECISION
  let a2 ← checked_mul192 a1 d
  let b1 ← checked_add192 n 1
  let b2 ← checked_mul192 b1 dp
  let b3 ← checked_mul192 b2 AMP_PRECISION
  let den ← checked_add192 a2 b3
  let nd ← checked_mul192 num d
  checked_div192 nd den

/-- The bounded Newton-Raphson loop of `calc_invariant`: early `Some` when
successive iterates differ by at most `DEFAULT_INV_THRESHOLD`, `none` when
the fuel is exhausted. -/
def invLoop (ann n s : Nat) (balances : List Nat) : Nat → Nat → Option Nat
  | 0, _ => none
  | fuel + 1, d =>
      (invStep ann n s balances d).bind (fun d_new =>
        if (if d_new > d then d_new - d else d - d_new) ≤ DEFAULT_INV_THRESHOLD then
          as_u64 d_new
        else invLoop ann n s balances fuel d_new)

def calc_invariant (amp : Nat) (balances : List Nat) : Option Nat :=
  let n := balances.length
  let s := balances.sum
  if s = 0 then some 0
  else
    (checkedMul64 amp n).bind (fun ann =>
      invLoop ann n s balances MAX_LOOP_LIMIT s)

/-- The sum/product fold over `balances[1..]` in
`get_token_balance_given_invariant_and_others`. -/
def psFold (n invariant : Nat) : List Nat → Nat × Nat → Option (Nat × Nat)
  | [], acc => some acc
  | balance :: rest, (p, s) => do
      let p_i ← checkedMul64 balance n
      let p2 ← checked_mul_div_down p p_i invariant
      let s2 ← checkedAdd64 s balance
      psFold n invariant rest (p2, s2)

/-- The setup of the per-token balance solver: computes the constants
`c`, `b` and the initial approximation `(D² + c) / (D + b)`. -/
def tbInit (amp : Nat) (balances : List Nat) (invariant token_index : Nat) :
    Option (Nat × Nat × Nat) := do
  let num_tokens := balances.length
  let amp_times_total ← checkedMul64 amp num_tokens
  let p0 ← checkedMul64 (balances.getD 0 0) num_tokens
  let ps ← psFold num_tokens invariant balances.tail (p0, balances.getD 0 0)
  let balance := balances.getD token_index 0
  let s := ps.2 - balance
  let invariant_2 ← checked_mul192 invariant invariant
  let den ← checked_mul192 amp_times_total ps.1
  let c0 ← checked_mul_div_up invariant_2 AMP_PRECISION den
  let c ← checked_mul192 c0 balance
  let b0 ← checked_mul_div_down invariant AMP_PRECISION amp_times_total
  let b ← checked_add192 b0 s
  let num0 ← checked_add192 invariant_2 c
  let den0 ← checked_add192 invariant b
  let tb0 ← checked_div_ceil num0 den0
  some (c, b, tb0)

/-- One Newton step of the per-token balance solver:
`y_new = ceil((y² + c) / (2y + b - D))`. -/
def tbStep (c b invariant tb : Nat) : Option Nat := do
  let sq ← checked_mul192 tb tb
  let num ← checked_add192 sq c
  let d1 ← checked_add192 (2 * tb % U192_SIZE) b
  let d2 ← checkedSub d1 invariant
  checked_div_ceil num d2

/-- The bounded Newton-Raphson loop of the per-token balance solver: early
`Some` when successive iterates (downcast to u64) differ by at most
`BALANCE_THRESHOLD`, `none` when the fuel is exhausted. -/
def tbLoop (c b invariant : Nat) : Nat → Nat → Option Nat
  | 0, _ => none
  | fuel + 1, tb =>
      (tbStep c b invariant tb).bind (fun tb2 =>
        (as_u64 tb2).bind (fun t64 =>
          (as_u64 tb).bind (fun p64 =>
            if t64 > p64 then
              if t64 - p64 ≤ BALANCE_THRESHOLD then some t64
              else tbLoop c b invariant fuel tb2
            else if p64 - t64 ≤ BALANCE_THRESHOLD then some t64
            else tbLoop c b invariant fuel tb2)))

def get_token_balance_given_invariant_and_others (amp : Nat)
    (balances : List Nat) (invariant token_index : Nat) : Option Nat :=
  (tbInit amp balances invariant token_index).bind (fun cbt =>
    tbLoop cbt.1 cbt.2.1 invariant 64 cbt.2.2)

def calc_out_given_in (amp : Nat) (balances : List Nat)
    (token_index_in token_index_out amount_in : Nat) : Option Nat := do
  let invariant ← calc_invariant amp balances
  let new_in ← checkedAdd64 (balances.getD token_index_in 0) amount_in
  let new_balances := balances.set token_index_in new_in
  let balance_out := balances.getD token_index_out 0
  let final_balance_out ←
    get_token_balance_given_invariant_and_others amp new_balances invariant
      token_index_out
  let d ← checkedSub balance_out final_balance_out
  checkedSub d 1

def calc_in_given_out (amp : Nat) (balances : List Nat)
    (token_index_in token_index_out amount_out : Nat) : Option Nat := do
  let invariant ← calc_invariant amp balances
  let new_out ← checkedSub (balances.getD token_index_out 0) amount_out
  let new_balances := balances.set token_index_out new_out
  let balance_in := balances.getD token_index_in 0
  let final_balance_in ←
    get_token_balance_given_invariant_and_others amp new_balances invariant
      token_index_in
  let d ← checkedSub final_balance_in balance_in
  checkedAdd64 d 1

def calc_tokens_out_proportional (balances : List Nat)
    (lp_amount_in lp_supply : Nat) : Option (List Nat) :=
  balances.mapM (fun balance =>
    ((checkedMul128 balance lp_amount_in).bind
      (fun v => checkedDiv v lp_supply)).bind toU64)

def calc_tokens_in_proportional (balances : List Nat)
    (lp_amount_out lp_supply : Nat) : Option (List Nat) :=
  balances.mapM (fun balance =>
    (((checkedMul128 balance lp_amount_out).bind
      (fun v => checkedAdd128 v (lp_supply - 1))).bind
      (fun v => checkedDiv v lp_supply)).bind toU64)

end Stable

/-! ### The spec's rounding composition for the weighted swap (claim C4)

This second definition follows the spec's words rather than the source; the
refinement theorem below compares the two. -/

namespace Weighted

/-- The spec's stated composition for the weighted `calc_out_given_in`:
`mul_down(balance_out, complement(pow_up(div_up(balance_in, balance_in +
amount_in), div_down(weight_in, weight_out))))` — written from the spec's
words, to be compared against the source embedding. -/
def calc_out_given_in_spec (balance_in weight_in balance_out weight_out amount_in : Nat) :
    Except MiniStabbleError Nat := do
  let base ← U128.div_up balance_in (balance_in + amount_in)
  let exponent ← U128.div_down weight_in weight_out
  let power ← U128.pow_up base exponent
  U128.mul_down balance_out (U128.complement power)

end Weighted

/-! ## Helper lemmas -/

lemma ok_bind (v : Nat) (f : Nat → Except MiniStabbleError Nat) :
    (Except.ok v >>= f) = f v := rfl

lemma err_bind (e : MiniStabbleError) (f : Nat → Except MiniStabbleError Nat) :
    ((Except.error e : Except MiniStabbleError Nat) >>= f) = Except.error e := rfl

/-- Ceiling division is an upper bound: `x ≤ ((x + (b-1)) / b) * b`. -/
lemma le_ceilDiv_mul (x b : Nat) (hb : 0 < b) : x ≤ (x + (b - 1)) / b * b := by
  have h1 := Nat.div_add_mod (x + (b - 1)) b
  have h2 : (x + (b - 1)) % b < b := Nat.mod_lt _ hb
  have h3 : b * ((x + (b - 1)) / b) = (x + (b - 1)) / b * b := Nat.mul_comm _ _
  omega

lemma div_down128_ok (a b d : Nat) (h : U128.div_down a b = .ok d) :
    b ≠ 0 ∧ d = a * SCALE / b := by
  by_cases hb : b = 0
  · simp [U128.div_down, hb] at h
  · by_cases hfit : a * SCALE < U128_SIZE
    · simp [U128.div_down, hb, hfit, checkedMul128, checkedDiv, okOr] at h
      exact ⟨hb, h.symm⟩
    · simp [U128.div_down, hb, hfit, checkedMul128, checkedDiv, okOr] at h

lemma div_up128_ok (a b u : Nat) (h : U128.div_up a b = .ok u) :
    b ≠ 0 ∧ u = (a * SCALE + (b - 1)) / b := by
  unfold U128.div_up checkedMul128 checkedAdd128 checkedDiv at h
  split at h
  case isTrue hb => exact Except.noConfusion h
  case isFalse hb =>
    refine ⟨hb, ?_⟩
    split at h
    case isFalse =>
      rw [show okOr none MiniStabbleError.MathOverflow =
        Except.error MiniStabbleError.MathOverflow from rfl, err_bind] at h
      exact Except.noConfusion h
    case isTrue hfit =>
      rw [show okOr (some (a * SCALE)) MiniStabbleError.MathOverflow =
        Except.ok (a * SCALE) from rfl, ok_bind] at h
      split at h
      case isFalse =>
        simp only [Option.none_bind, okOr] at h
        exact Except.noConfusion h
      case isTrue hfit2 =>
        simp only [Option.some_bind] at h
        simp only [okOr, Except.ok.injEq] at h
        exact h.symm

lemma mul_down128_ok (a b d : Nat) (h : U128.mul_down a b = .ok d) :
    d = a * b / SCALE := by
  by_cases hfit : a * b < U128_SIZE
  · simp [U128.mul_down, hfit, checkedMul128, checkedDiv, okOr, SCALE] at h
    simpa [SCALE] using h.symm
  · simp [U128.mul_down, hfit, checkedMul128, okOr] at h

lemma mul_up128_ok (a b u : Nat) (h : U128.mul_up a b = .ok u) :
    u = (a * b + (SCALE - 1)) / SCALE := by
  obtain ⟨c, hc⟩ : ∃ c, SCALE - 1 = c := ⟨_, rfl⟩
  rw [show (a * b + (SCALE - 1)) / SCALE = (a * b + c) / SCALE from by rw [hc]]
  unfold U128.mul_up checkedMul128 checkedAdd128 checkedDiv at h
  rw [hc] at h
  split at h
  case isFalse =>
    rw [show okOr none MiniStabbleError.MathOverflow =
      Except.error MiniStabbleError.MathOverflow from rfl, err_bind] at h
    exact Except.noConfusion h
  case isTrue hfit =>
    rw [show okOr (some (a * b)) MiniStabbleError.MathOverflow =
      Except.ok (a * b) from rfl, ok_bind] at h
    split at h
    case isFalse =>
      simp only [Option.none_bind, okOr] at h
      exact Except.noConfusion h
    case isTrue hfit2 =>
      simp only [Option.some_bind] at h
      split at h
      case isTrue hz => exact absurd hz (by decide)
      case isFalse hz =>
        simp only [okOr, Except.ok.injEq] at h
        exact h.symm

lemma div_down64_ok (a b d : Nat) (h : U64.div_down a b = .ok d) :
    b ≠ 0 ∧ d = a * ONE_U64 / b := by
  by_cases hb : b = 0
  · simp [U64.div_down, hb] at h
  · by_cases hfit : a * ONE_U64 < U128_SIZE
    · by_cases hsm : a * ONE_U64 / b < U64_SIZE
      · simp [U64.div_down, hb, hfit, hsm, checkedMul128, checkedDiv, toU64, okOr] at h
        exact ⟨hb, h.symm⟩
      · simp [U64.div_down, hb, hfit, hsm, checkedMul128, checkedDiv, toU64, okOr] at h
    · simp [U64.div_down, hb, hfit, checkedMul128, okOr] at h

lemma div_up64_ok (a b u : Nat) (h : U64.div_up a b = .ok u) :
    b ≠ 0 ∧ u = (a * ONE_U64 + (b - 1)) / b := by
  unfold U64.div_up checkedMul128 checkedAdd128 checkedDiv toU64 at h
  split at h
  case isTrue hb => exact Except.noConfusion h
  case isFalse hb =>
    refine ⟨hb, ?_⟩
    split at h
    case isFalse =>
      rw [show okOr none MiniStabbleError.MathOverflow =
        Except.error MiniStabbleError.MathOverflow from rfl, err_bind] at h
      exact Except.noConfusion h
    case isTrue hfit =>
      rw [show okOr (some (a * ONE_U64)) MiniStabbleError.MathOverflow =
        Except.ok (a * ONE_U64) from rfl, ok_bind] at h
      split at h
      case isFalse =>
        simp only [Option.none_bind, okOr] at h
        exact Except.noConfusion h
      case isTrue hfit2 =>
        simp only [Option.some_bind] at h
        split at h
        case isFalse =>
          simp only [okOr] at h
          exact Except.noConfusion h
        case isTrue hsm =>
          simp only [okOr, Except.ok.injEq] at h
          exact h.symm

lemma mul_down64_ok (a b d : Nat) (h : U64.mul_down a b = .ok d) :
    d = a * b / ONE_U64 := by
  have hONE : ¬ (ONE_U64 = 0) := by decide
  by_cases hfit : a * b < U128_SIZE
  · by_cases hsm : a * b / ONE_U64 < U64_SIZE
    · simp [U64.mul_down, hfit, hsm, hONE, checkedMul128, checkedDiv, toU64, okOr] at h
      exact h.symm
    · simp [U64.mul_down, hfit, hsm, hONE, checkedMul128, checkedDiv, toU64, okOr] at h
  · simp [U64.mul_down, hfit, checkedMul128, okOr] at h

lemma mul_up64_ok (a b u : Nat) (h : U64.mul_up a b = .ok u) :
    u = (a * b + (ONE_U64 - 1)) / ONE_U64 := by
  obtain ⟨c, hc⟩ : ∃ c, ONE_U64 - 1 = c := ⟨_, rfl⟩
  rw [show (a * b + (ONE_U64 - 1)) / ONE_U64 = (a * b + c) / ONE_U64 from by rw [hc]]
  unfold U64.mul_up checkedMul128 checkedAdd128 checkedDiv toU64 at h
  rw [hc] at h
  split at h
  case isFalse =>
    rw [show okOr none MiniStabbleError.MathOverflow =
      Except.error MiniStabbleError.MathOverflow from rfl, err_bind] at h
    exact Except.noConfusion h
  case isTrue hfit =>
    rw [show okOr (some (a * b)) MiniStabbleError.MathOverflow =
      Except.ok (a * b) from rfl, ok_bind] at h
    split at h
    case isFalse =>
      simp only [Option.none_bind, okOr] at h
      exact Except.noConfusion h
    case isTrue hfit2 =>
      simp only [Option.some_bind] at h
      split at h
      case isTrue hz => exact absurd hz (by decide)
      case isFalse hz =>
        simp only [Option.some_bind] at h
        split at h
        case isFalse =>
          simp only [okOr] at h
          exact Except.noConfusion h
        case isTrue hsm =>
          simp only [okOr, Except.ok.injEq] at h
          exact h.symm

/-- `pow_down` of a zero base is exactly zero on the four nonzero fast-path
exponents. -/
lemma pow_down_zero_fast (w : Nat) (hw : w = ONE ∨ w = TWO ∨ w = THREE ∨ w = FOUR) :
    U128.pow_down 0 w = .ok 0 := by
  rcases hw with h | h | h | h <;> subst h <;> rfl

/-- The weighted invariant product collapses to zero once the accumulator is
zero, over any all-zero balance list with fast-path weights. -/
lemma invariantProd_all_zero (l : List (Nat × Nat))
    (hz : ∀ p ∈ l, p.1 = 0)
    (hw : ∀ p ∈ l, p.2 = ONE ∨ p.2 = TWO ∨ p.2 = THREE ∨ p.2 = FOUR) :
    Weighted.invariantProd l 0 = .ok 0 := by
  induction l with
  | nil => rfl
  | cons p rest ih =>
      obtain ⟨p1, p2⟩ := p
      have h1 : p1 = 0 := hz (p1, p2) (List.mem_cons_self _ _)
      subst h1
      show Weighted.invariantProd ((0, p2) :: rest) 0 = .ok 0
      rw [Weighted.invariantProd,
        pow_down_zero_fast p2 (hw (0, p2) (List.mem_cons_self _ _))]
      exact ih (fun q hq => hz q (List.mem_cons_of_mem _ hq))
        (fun q hq => hw q (List.mem_cons_of_mem _ hq))

/-! ## Claim theorems -/

/-- C1: the stable engine's `calc_invariant` reproduces the three reference
vectors: amp=5,000,000 with balances `[40e15, 60e15]` gives
99999583421855646; amp=750,000 with `[40e15, 50e15, 60e15]` gives
149997226126050479; amp=150,000 with `[40e15, 50e15, 60e15, 70e15]` gives
219967475585041316. -/
theorem stable_calc_invariant_reference_vectors :
    Stable.calc_invariant 5000000 [40000000000000000, 60000000000000000] =
      some 99999583421855646 ∧
    Stable.calc_invariant 750000
      [40000000000000000, 50000000000000000, 60000000000000000] =
      some 149997226126050479 ∧
    Stable.calc_invariant 150000
      [40000000000000000, 50000000000000000, 60000000000000000, 70000000000000000] =
      some 219967475585041316 := by
  refine ⟨?_, ?_, ?_⟩ <;> decide

/-- C2: the stable engine's `calc_out_given_in` with amp=5,000,000 and
balances `[894520800000000, 467581800000000]`, swapping token 0 for token 1,
returns 999845351779 for amount_in=1e12, 999845869 for amount_in=1e9, and
999845 for amount_in=1e6. -/
theorem stable_calc_out_given_in_reference_vectors :
    Stable.calc_out_given_in 5000000 [894520800000000, 467581800000000] 0 1
      1000000000000 = some 999845351779 ∧
    Stable.calc_out_given_in 5000000 [894520800000000, 467581800000000] 0 1
      1000000000 = some 999845869 ∧
    Stable.calc_out_given_in 5000000 [894520800000000, 467581800000000] 0 1
      1000000 = some 999845 := by
  refine ⟨?_, ?_, ?_⟩ <;> decide

/-- C4: whenever the initial checked addition `balance_in + amount_in` fits
(the only step the spec's composition leaves implicit), the weighted
engine's `calc_out_given_in` is literally the spec's rounding composition
`mul_down(balance_out, complement(pow_up(div_up(balance_in, balance_in +
amount_in), div_down(weight_in, weight_out))))` — in particular the two
agree on every input on which no arithmetic step fails. -/
theorem weighted_calc_out_given_in_rounding_composition
    (balance_in weight_in balance_out weight_out amount_in : Nat)
    (h : balance_in + amount_in < U128_SIZE) :
    Weighted.calc_out_given_in balance_in weight_in balance_out weight_out amount_in =
      Weighted.calc_out_given_in_spec balance_in weight_in balance_out weight_out
        amount_in := by
  simp [Weighted.calc_out_given_in, Weighted.calc_out_given_in_spec, checkedAdd128, h,
    okOr, ok_bind]

/-- C4 witness: the refinement theorem applied at a concrete input. -/
theorem weighted_calc_out_given_in_rounding_composition_witness :
    Weighted.calc_out_given_in 1000000000 1000000000 1000000000 1000000000
      1000000000 =
      Weighted.calc_out_given_in_spec 1000000000 1000000000 1000000000 1000000000
        1000000000 :=
  weighted_calc_out_given_in_rounding_composition 1000000000 1000000000 1000000000
    1000000000 1000000000 (by decide)

/-- C5: whenever the stable engine's `calc_in_given_out` succeeds, its result
is exactly `new_balance_in - old_balance_in + 1`, where `new_balance_in` is
the balance solved for the in-token at the invariant of the original
balances after subtracting `amount_out` from the out-token's balance; in
particular the trader pays at least one extra raw unit (`1 ≤ result`). -/
theorem stable_calc_in_given_out_solves_and_adds_one
    (amp : Nat) (balances : List Nat) (i j amount_out r : Nat)
    (h : Stable.calc_in_given_out amp balances i j amount_out = some r) :
    ∃ D y, Stable.calc_invariant amp balances = some D ∧
      amount_out ≤ balances.getD j 0 ∧
      Stable.get_token_balance_given_invariant_and_others amp
        (balances.set j (balances.getD j 0 - amount_out)) D i = some y ∧
      balances.getD i 0 ≤ y ∧ r = y - balances.getD i 0 + 1 ∧ 1 ≤ r := by
  simp only [Stable.calc_in_given_out, bind, Option.bind_eq_some] at h
  obtain ⟨D, hD, no, hno, y, hy, d, hd, hr⟩ := h
  simp only [checkedSub] at hno hd
  simp only [checkedAdd64] at hr
  split at hno
  case isFalse => exact Option.noConfusion hno
  case isTrue hle =>
  injection hno with hno2
  subst hno2
  split at hd
  case isFalse => exact Option.noConfusion hd
  case isTrue hley =>
  injection hd with hd2
  subst hd2
  split at hr
  case isFalse => exact Option.noConfusion hr
  case isTrue hradd =>
  injection hr with hr2
  subst hr2
  exact ⟨D, y, hD, hle, hy, hley, rfl, by omega⟩

/-- C5 witness: the theorem applied at the repository's own
`calc_in_given_out` test input, whose result is 100015420477. -/
theorem stable_calc_in_given_out_solves_and_adds_one_witness :
    ∃ D y, Stable.calc_invariant 5000000 [894520800000000, 467581800000000] =
      some D ∧
      100000000000 ≤ [894520800000000, 467581800000000].getD 1 0 ∧
      Stable.get_token_balance_given_invariant_and_others 5000000
        ([894520800000000, 467581800000000].set 1
          ([894520800000000, 467581800000000].getD 1 0 - 100000000000)) D 0 =
        some y ∧
      [894520800000000, 467581800000000].getD 0 0 ≤ y ∧
      100015420477 = y - [894520800000000, 467581800000000].getD 0 0 + 1 ∧
      1 ≤ 100015420477 :=
  stable_calc_in_given_out_solves_and_adds_one 5000000
    [894520800000000, 467581800000000] 0 1 100000000000 100015420477 (by decide)

/-- C6 counterexample: the stable engine's `calc_invariant` does NOT fail for
an empty or an all-zero balances array — it returns `some 0`, contradicting
the claim that both engines fail with `InvalidAmount` and never return 0. -/
theorem stable_calc_invariant_returns_zero_on_zero_sum :
    Stable.calc_invariant 1000 ([] : List Nat) = some 0 ∧
    Stable.calc_invariant 1000 [0, 0] = some 0 := by
  refine ⟨?_, ?_⟩ <;> decide

/-- C6 (amended): the weighted engine's `calc_invariant` fails with
`InvalidAmount` for mismatched lengths, for an empty balances array, and for
an all-zero balances array whose weights all lie on the nonzero fast-path
exponents (`ONE`, `TWO`, `THREE`, `FOUR`); the stable engine's
`calc_invariant` instead returns `some 0` whenever the balance sum is zero
(in particular for empty and all-zero arrays), rather than failing. -/
theorem engine_zero_input_validation_amended (amp : Nat)
    (balances weights : List Nat) :
    (balances.length ≠ weights.length ∨ balances = [] →
      Weighted.calc_invariant balances weights = .error .InvalidAmount) ∧
    (balances ≠ [] → balances.length = weights.length →
      (∀ b ∈ balances, b = 0) →
      (∀ w ∈ weights, w = ONE ∨ w = TWO ∨ w = THREE ∨ w = FOUR) →
      Weighted.calc_invariant balances weights = .error .InvalidAmount) ∧
    (balances.sum = 0 → Stable.calc_invariant amp balances = some 0) := by
  refine ⟨?_, ?_, ?_⟩
  · intro h
    rw [Weighted.calc_invariant, if_pos]
    rcases h with h | h
    · exact Or.inl h
    · exact Or.inr (by simp [h])
  · intro hne hlen hz hw
    cases balances with
    | nil => exact absurd rfl hne
    | cons b bs =>
        cases weights with
        | nil => simp at hlen
        | cons w ws =>
            have hb : b = 0 := hz b (List.mem_cons_self _ _)
            subst hb
            have hprod : Weighted.invariantProd ((0, w) :: bs.zip ws) ONE =
                Except.ok 0 := by
              rw [Weighted.invariantProd,
                pow_down_zero_fast w (hw w (List.mem_cons_self _ _))]
              exact invariantProd_all_zero (bs.zip ws)
                (fun q hq => hz q.1 (List.mem_cons_of_mem _ (List.of_mem_zip hq).1))
                (fun q hq => hw q.2 (List.mem_cons_of_mem _ (List.of_mem_zip hq).2))
            rw [Weighted.calc_invariant, if_neg (by simp [hlen])]
            show (Weighted.invariantProd ((0, w) :: bs.zip ws) ONE >>= fun invariant =>
              if invariant > 0 then Except.ok invariant
              else Except.error MiniStabbleError.InvalidAmount) = _
            simp only [hprod, ok_bind]
            rfl
  · intro h
    simp [Stable.calc_invariant, h]

/-- C6 witness: the amended theorem applied to concrete inputs — an empty
weighted pool, a one-token all-zero weighted pool with weight `ONE`, and a
two-token all-zero stable pool. -/
theorem engine_zero_input_validation_amended_witness :
    Weighted.calc_invariant [] [1000000000] = .error .InvalidAmount ∧
    Weighted.calc_invariant [0] [1000000000] = .error .InvalidAmount ∧
    Stable.calc_invariant 7 [0, 0] = some 0 :=
  ⟨(engine_zero_input_validation_amended 7 [] [1000000000]).1 (Or.inr rfl),
   (engine_zero_input_validation_amended 7 [0] [1000000000]).2.1 (by decide)
     (by decide) (by decide) (by decide),
   (engine_zero_input_validation_amended 7 [0, 0] []).2.2 (by decide)⟩

/-- C7: both stable-engine Newton-Raphson solvers are bounded loops: the
D-solver runs at most `MAX_LOOP_LIMIT = 256` steps and the per-token balance
solver at most 64 steps (both bounds within [64, 256]); each returns early
with a result as soon as the step-to-step difference is within its absolute
tolerance (`DEFAULT_INV_THRESHOLD = 100` respectively `BALANCE_THRESHOLD =
1`), and returns `none` — no partial result — when the bound is exhausted. -/
theorem stable_newton_solvers_bounded :
    (∀ ann n s balances d, Stable.invLoop ann n s balances 0 d = none) ∧
    (∀ c b invariant tb, Stable.tbLoop c b invariant 0 tb = none) ∧
    (64 ≤ Stable.MAX_LOOP_LIMIT ∧ Stable.MAX_LOOP_LIMIT ≤ 256) ∧
    Stable.DEFAULT_INV_THRESHOLD = 100 ∧ Stable.BALANCE_THRESHOLD = 1 ∧
    (∀ ann n s balances fuel d, Stable.invLoop ann n s balances (fuel + 1) d =
      (Stable.invStep ann n s balances d).bind (fun d_new =>
        if (if d_new > d then d_new - d else d - d_new) ≤
            Stable.DEFAULT_INV_THRESHOLD then
          Stable.as_u64 d_new
        else Stable.invLoop ann n s balances fuel d_new)) ∧
    (∀ c b invariant fuel tb, Stable.tbLoop c b invariant (fuel + 1) tb =
      (Stable.tbStep c b invariant tb).bind (fun tb2 =>
        (Stable.as_u64 tb2).bind (fun t64 =>
          (Stable.as_u64 tb).bind (fun p64 =>
            if t64 > p64 then
              if t64 - p64 ≤ Stable.BALANCE_THRESHOLD then some t64
              else Stable.tbLoop c b invariant fuel tb2
            else if p64 - t64 ≤ Stable.BALANCE_THRESHOLD then some t64
            else Stable.tbLoop c b invariant fuel tb2)))) ∧
    (∀ amp balances, Stable.calc_invariant amp balances =
      if balances.sum = 0 then some 0
      else (checkedMul64 amp balances.length).bind (fun ann =>
        Stable.invLoop ann balances.length balances.sum balances
          Stable.MAX_LOOP_LIMIT balances.sum)) ∧
    (∀ amp balances invariant token_index,
      Stable.get_token_balance_given_invariant_and_others amp balances invariant
        token_index =
      (Stable.tbInit amp balances invariant token_index).bind (fun cbt =>
        Stable.tbLoop cbt.1 cbt.2.1 invariant 64 cbt.2.2)) :=
  ⟨fun _ _ _ _ _ => rfl, fun _ _ _ _ => rfl, ⟨by decide, by decide⟩, rfl, rfl,
   fun _ _ _ _ _ _ => rfl, fun _ _ _ _ _ => rfl, fun _ _ => rfl, fun _ _ _ _ => rfl⟩

/-- C8: the fixed-point rounding envelope, for the `u128` and the `u64`
implementations alike: whenever they succeed, `div_down(a,b)` is at most the
exact rational `a·SCALE/b`, which is at most `div_up(a,b)` (stated
denominator-cleared), and `mul_down(a,b) ≤ mul_up(a,b) ≤ mul_down(a,b)+1`. -/
theorem fixed_point_rounding_envelope (a b : Nat) :
    (∀ d, U128.div_down a b = .ok d → d * b ≤ a * SCALE) ∧
    (∀ u, U128.div_up a b = .ok u → a * SCALE ≤ u * b) ∧
    (∀ d u, U128.mul_down a b = .ok d → U128.mul_up a b = .ok u →
      d ≤ u ∧ u ≤ d + 1) ∧
    (∀ d, U64.div_down a b = .ok d → d * b ≤ a * ONE_U64) ∧
    (∀ u, U64.div_up a b = .ok u → a * ONE_U64 ≤ u * b) ∧
    (∀ d u, U64.mul_down a b = .ok d → U64.mul_up a b = .ok u →
      d ≤ u ∧ u ≤ d + 1) := by
  refine ⟨?_, ?_, ?_, ?_, ?_, ?_⟩
  · intro d h
    obtain ⟨hb, rfl⟩ := div_down128_ok a b d h
    exact Nat.div_mul_le_self _ _
  · intro u h
    obtain ⟨hb, rfl⟩ := div_up128_ok a b u h
    exact le_ceilDiv_mul _ _ (Nat.pos_of_ne_zero hb)
  · intro d u hd hu
    obtain rfl := mul_down128_ok a b d hd
    obtain rfl := mul_up128_ok a b u hu
    have h : SCALE = 1000000000 := rfl
    rw [h]
    omega
  · intro d h
    obtain ⟨hb, rfl⟩ := div_down64_ok a b d h
    exact Nat.div_mul_le_self _ _
  · intro u h
    obtain ⟨hb, rfl⟩ := div_up64_ok a b u h
    exact le_ceilDiv_mul _ _ (Nat.pos_of_ne_zero hb)
  · intro d u hd hu
    obtain rfl := mul_down64_ok a b d hd
    obtain rfl := mul_up64_ok a b u hu
    have h : ONE_U64 = 1000000000 := rfl
    rw [h]
    omega

/-- C8 witness: the envelope at `a = 7`, `b = 3` for all six conjuncts
(`div_down = 2333333333`, `div_up = 2333333334`, `mul_down = 0`,
`mul_up = 1`, on both widths). -/
theorem fixed_point_rounding_envelope_witness :
    2333333333 * 3 ≤ 7 * SCALE ∧ 7 * SCALE ≤ 2333333334 * 3 ∧
    ((0 : Nat) ≤ 1 ∧ (1 : Nat) ≤ 0 + 1) ∧
    2333333333 * 3 ≤ 7 * ONE_U64 ∧ 7 * ONE_U64 ≤ 2333333334 * 3 ∧
    ((0 : Nat) ≤ 1 ∧ (1 : Nat) ≤ 0 + 1) :=
  ⟨(fixed_point_rounding_envelope 7 3).1 2333333333 rfl,
   (fixed_point_rounding_envelope 7 3).2.1 2333333334 rfl,
   (fixed_point_rounding_envelope 7 3).2.2.1 0 1 rfl rfl,
   (fixed_point_rounding_envelope 7 3).2.2.2.1 2333333333 rfl,
   (fixed_point_rounding_envelope 7 3).2.2.2.2.1 2333333334 rfl,
   (fixed_point_rounding_envelope 7 3).2.2.2.2.2 0 1 rfl rfl⟩

/-- C9 counterexample: for two tokens of weight `ONE/2 = 500000000` and equal
balances 18000000000000000000 ≈ 1.8e19 (so the geometric mean is exactly that
balance), the weighted `calc_invariant` does not return the geometric mean:
the general power path truncates the base to `u64` and its bit conversion
`(self as u64).mul_down(BITS_ONE)` overflows `u64`, so the call fails with
`MathOverflow` — before ever reaching the external `powf`. -/
theorem weighted_equal_weight_geometric_mean_counterexample :
    Weighted.calc_invariant [18000000000000000000, 18000000000000000000]
      [500000000, 500000000] = .error .MathOverflow ∧
    (Except.error MiniStabbleError.MathOverflow ≠
      (Except.ok 18000000000000000000 : Except MiniStabbleError Nat)) :=
  ⟨rfl, fun h => Except.noConfusion h⟩

/-- C9 (amended): the single-token degenerate case holds exactly — for one
token of weight `ONE` with `0 < balance` and `ONE·balance` within `u128`,
`calc_invariant` returns exactly that balance.  The two-token equal-weight
(`ONE/2`) case instead goes through the approximate general power path and
does not always return the geometric mean: it fails with `MathOverflow` for
balances around 1.8e19 (see the counterexample). -/
theorem weighted_invariant_single_token_identity (balance : Nat)
    (h0 : 0 < balance) (hfit : ONE * balance < U128_SIZE) :
    Weighted.calc_invariant [balance] [ONE] = .ok balance := by
  have hpow : U128.pow_down balance ONE = Except.ok balance := by
    rw [U128.pow_down, if_neg (by decide), if_pos rfl]
  have hdiv : ONE * balance / SCALE = balance :=
    Nat.mul_div_cancel_left balance (by decide : 0 < SCALE)
  have hmul : U128.mul_down ONE balance = Except.ok balance := by
    unfold U128.mul_down checkedMul128 checkedDiv
    rw [if_pos hfit]
    simp only [Option.some_bind]
    rw [if_neg (by decide : ¬ (SCALE = 0)), hdiv]
    rfl
  have hprod : Weighted.invariantProd [(balance, ONE)] ONE = Except.ok balance := by
    simp only [Weighted.invariantProd, hpow, hmul, ok_bind]
  rw [Weighted.calc_invariant, if_neg (by simp)]
  show (Weighted.invariantProd [(balance, ONE)] ONE >>= fun invariant =>
    if invariant > 0 then Except.ok invariant
    else Except.error MiniStabbleError.InvalidAmount) = _
  simp only [hprod, ok_bind]
  rw [if_pos h0]

/-- C9 witness: the single-token identity at balance 42. -/
theorem weighted_invariant_single_token_identity_witness :
    Weighted.calc_invariant [42] [1000000000] = .ok 42 :=
  weighted_invariant_single_token_identity 42 (by decide) (by decide)

/-- C10: full exit is exact — for every balances list (of `u64` values) and
every positive `lp_supply` (a `u64`), burning the entire LP supply via
`calc_tokens_out_proportional(balances, lp_supply, lp_supply)` returns the
balances list itself, with no dust left by the floor division. -/
theorem stable_full_exit_returns_exact_balances (balances : List Nat)
    (lp_supply : Nat) (hne : balances ≠ []) (h0 : 0 < lp_supply)
    (hlt : lp_supply < U64_SIZE) (hb : ∀ b ∈ balances, b < U64_SIZE) :
    Stable.calc_tokens_out_proportional balances lp_supply lp_supply =
      some balances := by
  unfold Stable.calc_tokens_out_proportional
  clear hne
  induction balances with
  | nil => rfl
  | cons b rest ih =>
      have hblt : b < U64_SIZE := hb b (List.mem_cons_self _ _)
      have hfit : b * lp_supply < U128_SIZE := by
        have h2 := Nat.mul_lt_mul'' hblt hlt
        calc b * lp_supply < U64_SIZE * U64_SIZE := h2
        _ = U128_SIZE := by norm_num [U64_SIZE, U128_SIZE]
      have hdiv : b * lp_supply / lp_supply = b := Nat.mul_div_cancel b h0
      have hlz : ¬ (lp_supply = 0) := by omega
      have hstep : ((checkedMul128 b lp_supply).bind
          (fun v => checkedDiv v lp_supply)).bind toU64 = some b := by
        simp only [checkedMul128, if_pos hfit, Option.some_bind, checkedDiv,
          if_neg hlz, hdiv, toU64, if_pos hblt]
      have hrest : List.mapM (fun balance =>
          ((checkedMul128 balance lp_supply).bind
            (fun v => checkedDiv v lp_supply)).bind toU64) rest = some rest :=
        ih (fun q hq => hb q (List.mem_cons_of_mem _ hq))
      simp only [List.mapM_cons, hstep, hrest, Option.some_bind]
      rfl

/-- C10 witness: the spec's own proportional example at full exit —
balances `[1e12, 2e12]` with the whole supply `3e12` burned returns the
balances exactly. -/
theorem stable_full_exit_returns_exact_balances_witness :
    Stable.calc_tokens_out_proportional [1000000000000, 2000000000000]
      3000000000000 3000000000000 = some [1000000000000, 2000000000000] :=
  stable_full_exit_returns_exact_balances [1000000000000, 2000000000000]
    3000000000000 (by decide) (by decide) (by decide) (by decide)

end MiniStabble
